import Mathlib

set_option maxHeartbeats 1000000
set_option maxRecDepth 4000

/-!
Shallow embedding of the quantization kernel of `quantizer_app.py`.
Python floats are modelled as exact rationals; Python's built-in
`round` is modelled as round-half-to-even on ℚ; `raise ValueError`
is modelled with `Except String`.
-/

/-- Models Python 3's built-in `round` applied to a number: nearest
integer, with an exact tie between two integers resolved to the even
one (banker's rounding). -/
def pyRound (q : ℚ) : ℤ :=
  if q - ⌊q⌋ < 1 / 2 then ⌊q⌋
  else if 1 / 2 < q - ⌊q⌋ then ⌊q⌋ + 1
  else if Even ⌊q⌋ then ⌊q⌋ else ⌊q⌋ + 1

/-- `num_quantization_levels = 2**bit_rate` (`quantizer_app.py` line 33;
only reached for `bit_rate > 0`, hence the `toNat`). -/
def num_quantization_levels (bit_rate : ℤ) : ℤ := 2 ^ bit_rate.toNat

/-- `step_size = (max_range - min_range) / (num_quantization_levels - 1)`
(`quantizer_app.py` line 38). -/
def step_size (max_range min_range : ℚ) (bit_rate : ℤ) : ℚ :=
  (max_range - min_range) / ((num_quantization_levels bit_rate : ℚ) - 1)

/-- `normalized_voltage = (analog_voltage - min_range) / (max_range - min_range)`
(`quantizer_app.py` line 40). -/
def normalized_voltage (max_range min_range analog_voltage : ℚ) : ℚ :=
  (analog_voltage - min_range) / (max_range - min_range)

/-- `quantized_level_index = round(normalized_voltage * (num_quantization_levels - 1))`
(`quantizer_app.py` line 41). -/
def quantized_level_index (max_range min_range : ℚ) (bit_rate : ℤ)
    (analog_voltage : ℚ) : ℤ :=
  pyRound (normalized_voltage max_range min_range analog_voltage *
    ((num_quantization_levels bit_rate : ℚ) - 1))

/-- `quantized_level_index = max(0, min(int(quantized_level_index),
num_quantization_levels - 1))` (`quantizer_app.py` line 44; Python `int`
on an `int` is the identity). -/
def clamped_index (max_range min_range : ℚ) (bit_rate : ℤ)
    (analog_voltage : ℚ) : ℤ :=
  max 0 (min (quantized_level_index max_range min_range bit_rate analog_voltage)
    (num_quantization_levels bit_rate - 1))

/-- Embeds `compute_quantized_value(max_range, min_range, bit_rate,
analog_voltage)` from `quantizer_app.py` lines 10-48.  The Python
`raise ValueError(...)` becomes `Except.error`. -/
def compute_quantized_value (max_range min_range : ℚ) (bit_rate : ℤ)
    (analog_voltage : ℚ) : Except String ℚ :=
  if max_range ≤ min_range then
    .ok min_range
  else if bit_rate ≤ 0 then
    .error "Bit Rate must be a positive integer."
  else if num_quantization_levels bit_rate ≤ 1 then
    .ok min_range
  else
    .ok (min_range + (clamped_index max_range min_range bit_rate analog_voltage : ℚ) *
      step_size max_range min_range bit_rate)

/-- Embeds the explicit, user-triggered compute action `QuantizerApp._quantize`
(`quantizer_app.py` lines 795-850): validates `bit_r <= 0` first, then
`max_r <= min_r`, raising `ValueError` (modelled as `Except.error`) on
either, and only then calls `compute_quantized_value`.  On error the GUI
shows a dialog and sets the output to "N/A": no quantized output. -/
def explicit_quantize (max_r min_r : ℚ) (bit_r : ℤ) (analog_v : ℚ) :
    Except String ℚ :=
  if bit_r ≤ 0 then
    .error "Bit Rate must be a positive integer."
  else if max_r ≤ min_r then
    .error "Maximum Range must be greater than Minimum Range."
  else
    compute_quantized_value max_r min_r bit_r analog_v

/-- The IEEE-754 binary64 value of `2 * np.pi` used by
`np.linspace(0, 2 * np.pi, 200)`: twice the double nearest π. -/
def twoPi : ℚ := 884279719003555 / 2 ^ 47

/-- Embeds `np.linspace(start, stop, num)` (with the default
`endpoint=True`): `num` evenly spaced values from `start` to `stop`
inclusive, step `(stop - start) / (num - 1)`. -/
def linspace (start stop : ℚ) (num : ℕ) : List ℚ :=
  if num = 0 then []
  else if num = 1 then [start]
  else (List.range num).map (fun (i : ℕ) => start + (i : ℚ) * ((stop - start) / ((num - 1 : ℕ) : ℚ)))

/-- The sample times of the live plot: `time = np.linspace(0, 2 * np.pi, 200)`
(`quantizer_app.py` line 497). -/
def sample_times : List ℚ := linspace 0 twoPi 200

/-- Embeds the batch-quantization loop of `_update_quantization_plot`
(`quantizer_app.py` lines 514-518): walks the analog signal in order,
quantizing each value with `compute_quantized_value` and appending the
result; an exception raised on any element aborts the loop. -/
def quantize_signal_loop (max_r min_r : ℚ) (bit_r : ℤ) :
    List ℚ → Except String (List ℚ)
  | [] => .ok []
  | v :: vs =>
    match compute_quantized_value max_r min_r bit_r v with
    | .error e => .error e
    | .ok q =>
      match quantize_signal_loop max_r min_r bit_r vs with
      | .error e => .error e
      | .ok qs => .ok (q :: qs)

/-- The numeric output of one live plot refresh: the sample times, the
analog sine samples, their quantized values, and the marked single
input point when it lies inside the range. -/
structure PlotData where
  times : List ℚ
  analogSignal : List ℚ
  quantizedSignal : List ℚ
  singlePoint : Option ℚ
deriving DecidableEq, Repr

/-- Embeds the computational content of `QuantizerApp._update_quantization_plot`
(`quantizer_app.py` lines 437-556), the live/continuous recompute path:
if `max_r <= min_r` it renders an error banner and returns with no data
(`none`); otherwise it clamps `bit_r` to `max(1, bit_r)`, samples the
sine wave at `sample_times`, quantizes it element-wise, and marks the
single input point only when it lies inside `[min_r, max_r]`.  A
`ValueError` escaping the body is caught and shown as an error banner
(again `none`).  The sine function is a parameter `sinf` standing for
the real `np.sin` (its values do not affect the control flow modelled
here); the slider re-snapping side effect on the stored analog-voltage
variable is not modelled. -/
def update_quantization_plot (sinf : ℚ → ℚ) (max_r min_r : ℚ) (bit_r : ℤ)
    (analog_v_single_point : ℚ) : Option PlotData :=
  if max_r ≤ min_r then
    none
  else
    let bit_clamped : ℤ := max 1 bit_r
    let time : List ℚ := sample_times
    let analog_signal : List ℚ :=
      time.map (fun t => sinf t * ((max_r - min_r) / 2) + (max_r + min_r) / 2)
    match quantize_signal_loop max_r min_r bit_clamped analog_signal with
    | .error _ => none
    | .ok quantized_signal =>
      some
        { times := time
          analogSignal := analog_signal
          quantizedSignal := quantized_signal
          singlePoint :=
            if min_r ≤ analog_v_single_point ∧ analog_v_single_point ≤ max_r then
              (compute_quantized_value max_r min_r bit_clamped analog_v_single_point).toOption
            else
              none }

/-- One edit of one of the four input fields (the Tkinter variables
`Maximum Range`, `Minimum Range`, `Bit Rate`, `Analog Voltage`). -/
inductive FieldChange where
  | setMaxRange : ℚ → FieldChange
  | setMinRange : ℚ → FieldChange
  | setBitRate : ℤ → FieldChange
  | setAnalogVoltage : ℚ → FieldChange
deriving DecidableEq, Repr

/-- The four input-field variables of the application. -/
structure FieldVars where
  maxRange : ℚ
  minRange : ℚ
  bitRate : ℤ
  analogVoltage : ℚ
deriving DecidableEq, Repr

/-- Writing one field variable. -/
def applyFieldChange (s : FieldVars) : FieldChange → FieldVars
  | .setMaxRange q => { s with maxRange := q }
  | .setMinRange q => { s with minRange := q }
  | .setBitRate n => { s with bitRate := n }
  | .setAnalogVoltage q => { s with analogVoltage := q }

/-- Embeds the configuration-change event handling of `quantizer_app.py`
lines 189-196 and 430-435: every variable write fires its `trace_add`
callback, which synchronously and immediately calls
`_update_quantization_plot` — there is no timer, no pending deadline and
no cancellation anywhere in the program.  Each timestamped change event
therefore produces one recomputation, carrying the event's own
timestamp. -/
def processChangeEvents (sinf : ℚ → ℚ) (s : FieldVars) :
    List (ℕ × FieldChange) → List (ℕ × Option PlotData)
  | [] => []
  | (t, c) :: rest =>
    let s2 := applyFieldChange s c
    (t, update_quantization_plot sinf s2.maxRange s2.minRange s2.bitRate s2.analogVoltage) ::
      processChangeEvents sinf s2 rest

/-- Modelled from the spec: the §4.5 `UpdateScheduler` debounce state
machine, which the repository's code does not contain.  Given the sorted
times of a burst of change events, it returns the times at which a
recomputation would run: each event (re)schedules a deadline
`now + interval`, cancelling a pending one, and the recomputation fires
only when a deadline expires with no intervening event. -/
def debounceFireTimes (interval : ℕ) : List ℕ → List ℕ
  | [] => []
  | [t] => [t + interval]
  | t1 :: t2 :: rest =>
    if t2 < t1 + interval then debounceFireTimes interval (t2 :: rest)
    else (t1 + interval) :: debounceFireTimes interval (t2 :: rest)

deriving instance DecidableEq for Except

/-! ### Lemmas about `pyRound` -/

lemma pyRound_intCast (n : ℤ) : pyRound (n : ℚ) = n := by
  unfold pyRound
  rw [Int.floor_intCast]
  rw [if_pos]
  rw [sub_self]
  norm_num

lemma floor_le_pyRound (q : ℚ) : ⌊q⌋ ≤ pyRound q := by
  unfold pyRound
  split_ifs <;> omega

lemma pyRound_le_floor_add_one (q : ℚ) : pyRound q ≤ ⌊q⌋ + 1 := by
  unfold pyRound
  split_ifs <;> omega

lemma pyRound_nonpos {q : ℚ} (h : q ≤ 0) : pyRound q ≤ 0 := by
  have hfl : (⌊q⌋ : ℚ) ≤ q := Int.floor_le q
  have hf0 : ⌊q⌋ ≤ 0 := Int.floor_nonpos h
  unfold pyRound
  split_ifs with h1 h2 h3
  · exact hf0
  · have hq : (⌊q⌋ : ℚ) < -1/2 := by linarith
    have : ⌊q⌋ < 0 := by
      have : (⌊q⌋ : ℚ) < 0 := by linarith
      exact_mod_cast this
    omega
  · exact hf0
  · have heq : q - ⌊q⌋ = 1/2 := le_antisymm (not_lt.mp h2) (not_lt.mp h1)
    have hq : (⌊q⌋ : ℚ) ≤ -1/2 := by linarith
    have : ⌊q⌋ < 0 := by
      have : (⌊q⌋ : ℚ) < 0 := by linarith
      exact_mod_cast this
    omega

lemma le_pyRound {m : ℤ} {q : ℚ} (h : (m : ℚ) ≤ q) : m ≤ pyRound q :=
  le_trans (Int.le_floor.mpr h) (floor_le_pyRound q)

lemma pyRound_mono {x y : ℚ} (h : x ≤ y) : pyRound x ≤ pyRound y := by
  rcases lt_or_ge ⌊x⌋ ⌊y⌋ with hf | hf
  · calc pyRound x ≤ ⌊x⌋ + 1 := pyRound_le_floor_add_one x
      _ ≤ ⌊y⌋ := by omega
      _ ≤ pyRound y := floor_le_pyRound y
  · have hfe : ⌊x⌋ = ⌊y⌋ := le_antisymm (Int.floor_mono h) hf
    unfold pyRound
    rw [hfe]
    split_ifs <;> first | omega | linarith

lemma pyRound_tie (k : ℤ) : pyRound ((k : ℚ) + 1/2) = if Even k then k else k + 1 := by
  have hf : ⌊(k : ℚ) + 1/2⌋ = k := by
    rw [Int.floor_eq_iff]
    constructor
    · linarith
    · linarith
  unfold pyRound
  rw [hf]
  rw [if_neg (by norm_num), if_neg (by norm_num)]

/-! ### The valid-configuration normal form of `compute_quantized_value` -/

lemma two_le_levels {bit_rate : ℤ} (hB : 1 ≤ bit_rate) :
    2 ≤ num_quantization_levels bit_rate := by
  unfold num_quantization_levels
  have h1 : 1 ≤ bit_rate.toNat := by omega
  calc (2:ℤ) = 2 ^ 1 := (pow_one 2).symm
    _ ≤ 2 ^ bit_rate.toNat := pow_le_pow_right₀ (by norm_num) h1

lemma one_le_levels_sub_one {bit_rate : ℤ} (hB : 1 ≤ bit_rate) :
    (1:ℚ) ≤ (num_quantization_levels bit_rate : ℚ) - 1 := by
  have h := two_le_levels hB
  have h2 : ((2:ℤ) : ℚ) ≤ (num_quantization_levels bit_rate : ℚ) := by exact_mod_cast h
  push_cast at h2
  linarith

lemma cqv_valid (max_range min_range analog_voltage : ℚ) (bit_rate : ℤ)
    (hR : min_range < max_range) (hB : 1 ≤ bit_rate) :
    compute_quantized_value max_range min_range bit_rate analog_voltage =
      .ok (min_range + (clamped_index max_range min_range bit_rate analog_voltage : ℚ) *
        step_size max_range min_range bit_rate) := by
  unfold compute_quantized_value
  rw [if_neg (not_le.mpr hR), if_neg (by omega : ¬ bit_rate ≤ 0),
    if_neg (by have := two_le_levels hB; omega : ¬ num_quantization_levels bit_rate ≤ 1)]

lemma step_size_pos (max_range min_range : ℚ) (bit_rate : ℤ)
    (hR : min_range < max_range) (hB : 1 ≤ bit_rate) :
    0 < step_size max_range min_range bit_rate := by
  unfold step_size
  have h1 := one_le_levels_sub_one hB
  exact div_pos (by linarith) (by linarith)

lemma clamped_index_of_ge (max_range min_range analog_voltage : ℚ) (bit_rate : ℤ)
    (hR : min_range < max_range) (hB : 1 ≤ bit_rate) (hv : max_range ≤ analog_voltage) :
    clamped_index max_range min_range bit_rate analog_voltage =
      num_quantization_levels bit_rate - 1 := by
  have hL := two_le_levels hB
  have hden : (0:ℚ) < max_range - min_range := by linarith
  have hLq := one_le_levels_sub_one hB
  have hnorm : (1:ℚ) ≤ normalized_voltage max_range min_range analog_voltage := by
    unfold normalized_voltage
    rw [le_div_iff₀ hden]
    linarith
  have hx : ((num_quantization_levels bit_rate - 1 : ℤ) : ℚ) ≤
      normalized_voltage max_range min_range analog_voltage *
        ((num_quantization_levels bit_rate : ℚ) - 1) := by
    push_cast
    nlinarith
  have hr := le_pyRound hx
  unfold clamped_index quantized_level_index
  unfold quantized_level_index at hr
  rw [min_eq_right hr, max_eq_right (by omega)]

lemma clamped_index_of_le (max_range min_range analog_voltage : ℚ) (bit_rate : ℤ)
    (hR : min_range < max_range) (hB : 1 ≤ bit_rate) (hv : analog_voltage ≤ min_range) :
    clamped_index max_range min_range bit_rate analog_voltage = 0 := by
  have hL := two_le_levels hB
  have hden : (0:ℚ) < max_range - min_range := by linarith
  have hLq := one_le_levels_sub_one hB
  have hnorm : normalized_voltage max_range min_range analog_voltage ≤ 0 := by
    unfold normalized_voltage
    apply div_nonpos_of_nonpos_of_nonneg <;> linarith
  have hx : normalized_voltage max_range min_range analog_voltage *
      ((num_quantization_levels bit_rate : ℚ) - 1) ≤ 0 := by
    nlinarith
  have hr := pyRound_nonpos hx
  unfold clamped_index quantized_level_index
  unfold quantized_level_index at hr
  rw [min_eq_left (by omega), max_eq_left hr]

/-- C1: for maxRange=10, minRange=-10, bitDepth=8, input voltage 5, the
quantizer computes levels=256, step=20/255, level index
round((15/20)*255)=round(191.25)=191, and returns
-10 + 191*(20/255) = 254/51 ≈ 4.9804 V. -/
theorem quantize_scenario_a :
    num_quantization_levels 8 = 256 ∧
    step_size 10 (-10) 8 = 20 / 255 ∧
    pyRound ((15 / 20 : ℚ) * 255) = 191 ∧
    quantized_level_index 10 (-10) 8 5 = 191 ∧
    compute_quantized_value 10 (-10) 8 5 = .ok (-10 + 191 * (20 / 255)) ∧
    (-10 + 191 * (20 / 255) : ℚ) = 254 / 51 ∧
    (49803 / 10000 : ℚ) < 254 / 51 ∧ (254 / 51 : ℚ) < 49805 / 10000 := by
  refine ⟨by norm_num [num_quantization_levels, show (8:ℤ).toNat = 8 from rfl], ?_, ?_, ?_, ?_, by norm_num, by norm_num, by norm_num⟩
  · norm_num [step_size, num_quantization_levels, show (8:ℤ).toNat = 8 from rfl]
  · norm_num [pyRound, Int.even_iff]
  · norm_num [quantized_level_index, normalized_voltage, num_quantization_levels,
      pyRound, Int.even_iff, show (8:ℤ).toNat = 8 from rfl]
  · norm_num [compute_quantized_value, clamped_index, quantized_level_index,
      normalized_voltage, num_quantization_levels, step_size,
      pyRound, Int.even_iff, show (8:ℤ).toNat = 8 from rfl]

/-- C2: for a valid configuration (minRange < maxRange, bitDepth ≥ 1),
a voltage above maxRange quantizes exactly like maxRange, and a voltage
below minRange exactly like minRange: out-of-range inputs behave as if
clamped into the range. -/
theorem quantize_clamps_out_of_range (max_range min_range v : ℚ) (bit_rate : ℤ)
    (hR : min_range < max_range) (hB : 1 ≤ bit_rate) :
    (max_range < v →
      compute_quantized_value max_range min_range bit_rate v =
        compute_quantized_value max_range min_range bit_rate max_range) ∧
    (v < min_range →
      compute_quantized_value max_range min_range bit_rate v =
        compute_quantized_value max_range min_range bit_rate min_range) := by
  constructor <;> intro hv
  · rw [cqv_valid max_range min_range v bit_rate hR hB,
      cqv_valid max_range min_range max_range bit_rate hR hB,
      clamped_index_of_ge max_range min_range v bit_rate hR hB (le_of_lt hv),
      clamped_index_of_ge max_range min_range max_range bit_rate hR hB (le_refl _)]
  · rw [cqv_valid max_range min_range v bit_rate hR hB,
      cqv_valid max_range min_range min_range bit_rate hR hB,
      clamped_index_of_le max_range min_range v bit_rate hR hB (le_of_lt hv),
      clamped_index_of_le max_range min_range min_range bit_rate hR hB (le_refl _)]

/-- Witness for C2 at maxRange=10, minRange=-10, bitDepth=8: 100 V
quantizes like 10 V and -100 V like -10 V. -/
theorem quantize_clamps_out_of_range_witness :
    compute_quantized_value 10 (-10) 8 100 = compute_quantized_value 10 (-10) 8 10 ∧
    compute_quantized_value 10 (-10) 8 (-100) = compute_quantized_value 10 (-10) 8 (-10) :=
  ⟨(quantize_clamps_out_of_range 10 (-10) 100 8 (by norm_num) (by norm_num)).1 (by norm_num),
   (quantize_clamps_out_of_range 10 (-10) (-100) 8 (by norm_num) (by norm_num)).2 (by norm_num)⟩


lemma clamped_index_mono (max_range min_range v1 v2 : ℚ) (bit_rate : ℤ)
    (hR : min_range < max_range) (hB : 1 ≤ bit_rate) (hv : v1 ≤ v2) :
    clamped_index max_range min_range bit_rate v1 ≤
      clamped_index max_range min_range bit_rate v2 := by
  have hden : (0:ℚ) < max_range - min_range := by linarith
  have hLq := one_le_levels_sub_one hB
  have hnorm : normalized_voltage max_range min_range v1 ≤
      normalized_voltage max_range min_range v2 := by
    unfold normalized_voltage
    gcongr
  have hx : normalized_voltage max_range min_range v1 *
        ((num_quantization_levels bit_rate : ℚ) - 1) ≤
      normalized_voltage max_range min_range v2 *
        ((num_quantization_levels bit_rate : ℚ) - 1) :=
    mul_le_mul_of_nonneg_right hnorm (by linarith)
  have hr := pyRound_mono hx
  unfold clamped_index quantized_level_index
  exact max_le_max (le_refl 0) (min_le_min hr (le_refl _))

/-- C3: for a valid configuration (minRange < maxRange, bitDepth ≥ 1),
the quantizer is monotone non-decreasing in the input voltage: if
v1 ≤ v2 then the quantized value of v1 is at most that of v2. -/
theorem quantize_monotone (max_range min_range v1 v2 q1 q2 : ℚ) (bit_rate : ℤ)
    (hR : min_range < max_range) (hB : 1 ≤ bit_rate) (hv : v1 ≤ v2)
    (h1 : compute_quantized_value max_range min_range bit_rate v1 = .ok q1)
    (h2 : compute_quantized_value max_range min_range bit_rate v2 = .ok q2) :
    q1 ≤ q2 := by
  rw [cqv_valid max_range min_range v1 bit_rate hR hB] at h1
  rw [cqv_valid max_range min_range v2 bit_rate hR hB] at h2
  simp only [Except.ok.injEq] at h1 h2
  subst h1
  subst h2
  have hi := clamped_index_mono max_range min_range v1 v2 bit_rate hR hB hv
  have hiQ : ((clamped_index max_range min_range bit_rate v1 : ℤ) : ℚ) ≤
      ((clamped_index max_range min_range bit_rate v2 : ℤ) : ℚ) := by exact_mod_cast hi
  have hstep := step_size_pos max_range min_range bit_rate hR hB
  have := mul_le_mul_of_nonneg_right hiQ (le_of_lt hstep)
  linarith

/-- Witness for C3 at maxRange=10, minRange=-10, bitDepth=8 with
inputs -5 ≤ 5: outputs -254/51 ≤ 254/51. -/
theorem quantize_monotone_witness :
    compute_quantized_value 10 (-10) 8 (-5) = .ok (-254 / 51) ∧
    compute_quantized_value 10 (-10) 8 5 = .ok (254 / 51) ∧
    ((-254 : ℚ) / 51) ≤ 254 / 51 := by
  refine ⟨?_, ?_, ?_⟩
  · norm_num [compute_quantized_value, clamped_index, quantized_level_index,
      normalized_voltage, num_quantization_levels, step_size,
      pyRound, Int.even_iff, show (8:ℤ).toNat = 8 from rfl]
  · norm_num [compute_quantized_value, clamped_index, quantized_level_index,
      normalized_voltage, num_quantization_levels, step_size,
      pyRound, Int.even_iff, show (8:ℤ).toNat = 8 from rfl]
  · exact quantize_monotone 10 (-10) (-5) 5 (-254 / 51) (254 / 51) 8
      (by norm_num) (by norm_num) (by norm_num)
      (by norm_num [compute_quantized_value, clamped_index, quantized_level_index,
        normalized_voltage, num_quantization_levels, step_size,
        pyRound, Int.even_iff, show (8:ℤ).toNat = 8 from rfl])
      (by norm_num [compute_quantized_value, clamped_index, quantized_level_index,
        normalized_voltage, num_quantization_levels, step_size,
        pyRound, Int.even_iff, show (8:ℤ).toNat = 8 from rfl])

/-- C4: for a valid configuration (minRange < maxRange, bitDepth ≥ 1),
every output of the quantizer is a fixed point: quantizing a quantized
value returns it unchanged. -/
theorem quantize_idempotent (max_range min_range v q : ℚ) (bit_rate : ℤ)
    (hR : min_range < max_range) (hB : 1 ≤ bit_rate)
    (h : compute_quantized_value max_range min_range bit_rate v = .ok q) :
    compute_quantized_value max_range min_range bit_rate q = .ok q := by
  rw [cqv_valid max_range min_range v bit_rate hR hB] at h
  simp only [Except.ok.injEq] at h
  subst h
  rw [cqv_valid max_range min_range _ bit_rate hR hB]
  have hden : (0:ℚ) < max_range - min_range := by linarith
  have hLq := one_le_levels_sub_one hB
  set i := clamped_index max_range min_range bit_rate v with hidef
  have hi1 : 0 ≤ i := le_max_left 0 _
  have hi2 : i ≤ num_quantization_levels bit_rate - 1 := by
    rw [hidef]
    unfold clamped_index
    have hm : min (quantized_level_index max_range min_range bit_rate v)
        (num_quantization_levels bit_rate - 1) ≤
        num_quantization_levels bit_rate - 1 := min_le_right _ _
    have h0 : (0:ℤ) ≤ num_quantization_levels bit_rate - 1 := by
      have := two_le_levels hB
      omega
    exact max_le h0 hm
  have hne1 : max_range - min_range ≠ 0 := ne_of_gt hden
  have hne2 : (num_quantization_levels bit_rate : ℚ) - 1 ≠ 0 := by linarith
  have harg : (min_range + (i : ℚ) * step_size max_range min_range bit_rate - min_range) /
      (max_range - min_range) * ((num_quantization_levels bit_rate : ℚ) - 1) =
      ((i : ℤ) : ℚ) := by
    unfold step_size
    field_simp
    ring
  have hqli : quantized_level_index max_range min_range bit_rate
      (min_range + (i : ℚ) * step_size max_range min_range bit_rate) = i := by
    unfold quantized_level_index normalized_voltage
    rw [harg, pyRound_intCast]
  have key : clamped_index max_range min_range bit_rate
      (min_range + (i : ℚ) * step_size max_range min_range bit_rate) = i := by
    unfold clamped_index
    rw [hqli, min_eq_left hi2, max_eq_right hi1]
  rw [key]

/-- Witness for C4 at maxRange=10, minRange=-10, bitDepth=8: the output
254/51 of quantizing 5 V is itself a fixed point. -/
theorem quantize_idempotent_witness :
    compute_quantized_value 10 (-10) 8 (254 / 51) = .ok (254 / 51) :=
  quantize_idempotent 10 (-10) 5 (254 / 51) 8 (by norm_num) (by norm_num)
    (by norm_num [compute_quantized_value, clamped_index, quantized_level_index,
      normalized_voltage, num_quantization_levels, step_size,
      pyRound, Int.even_iff, show (8:ℤ).toNat = 8 from rfl])

/-- C5: whenever the batch-quantization loop of the plot path succeeds,
it returns one output per input, and the i-th output is exactly the
scalar `compute_quantized_value` of the i-th input: the vector path and
the scalar path agree element-by-element. -/
theorem quantize_signal_loop_elementwise (max_r min_r : ℚ) (bit_r : ℤ)
    (vs qs : List ℚ)
    (h : quantize_signal_loop max_r min_r bit_r vs = .ok qs) :
    qs.length = vs.length ∧
    ∀ i (h1 : i < vs.length) (h2 : i < qs.length),
      compute_quantized_value max_r min_r bit_r (vs.get ⟨i, h1⟩) =
        .ok (qs.get ⟨i, h2⟩) := by
  induction vs generalizing qs with
  | nil =>
    unfold quantize_signal_loop at h
    simp only [Except.ok.injEq] at h
    subst h
    exact ⟨rfl, fun i h1 h2 => absurd h1 (by simp)⟩
  | cons v vs ih =>
    unfold quantize_signal_loop at h
    cases hq : compute_quantized_value max_r min_r bit_r v with
    | error e => rw [hq] at h; exact absurd h (by simp)
    | ok q =>
      rw [hq] at h
      cases hl : quantize_signal_loop max_r min_r bit_r vs with
      | error e => rw [hl] at h; exact absurd h (by simp)
      | ok qs2 =>
        rw [hl] at h
        simp only [Except.ok.injEq] at h
        subst h
        obtain ⟨hlen, helem⟩ := ih qs2 hl
        refine ⟨by simp [hlen], ?_⟩
        intro i h1 h2
        cases i with
        | zero => simpa using hq
        | succ n =>
          simp only [List.length_cons, Nat.succ_lt_succ_iff] at h1 h2
          simpa using helem n h1 h2

/-- Witness for C5: for maxRange=10, minRange=-10, bitDepth=8 and the
input sequence [5], the batch output [254/51] matches the scalar
quantizer at index 0. -/
theorem quantize_signal_loop_elementwise_witness :
    compute_quantized_value 10 (-10) 8 (List.get [(5:ℚ)] ⟨0, by norm_num⟩) =
      .ok (List.get [(254:ℚ)/51] ⟨0, by norm_num⟩) :=
  (quantize_signal_loop_elementwise 10 (-10) 8 [5] [254/51]
    (by norm_num [quantize_signal_loop, compute_quantized_value, clamped_index,
      quantized_level_index, normalized_voltage, num_quantization_levels, step_size,
      pyRound, Int.even_iff, show (8:ℤ).toNat = 8 from rfl])).2 0 (by norm_num) (by norm_num)

lemma quantize_signal_loop_ok (max_r min_r : ℚ) (bit_r : ℤ)
    (hR : min_r < max_r) (hB : 1 ≤ bit_r) (vs : List ℚ) :
    ∃ qs, quantize_signal_loop max_r min_r bit_r vs = .ok qs := by
  induction vs with
  | nil => exact ⟨[], rfl⟩
  | cons v vs ih =>
    obtain ⟨qs, hqs⟩ := ih
    refine ⟨(min_r + (clamped_index max_r min_r bit_r v : ℚ) *
      step_size max_r min_r bit_r) :: qs, ?_⟩
    unfold quantize_signal_loop
    rw [cqv_valid max_r min_r v bit_r hR hB, hqs]

lemma update_plot_isSome (sinf : ℚ → ℚ) (max_r min_r : ℚ) (bit_r : ℤ) (v : ℚ)
    (hR : min_r < max_r) :
    (update_quantization_plot sinf max_r min_r bit_r v).isSome = true := by
  simp only [update_quantization_plot]
  rw [if_neg (not_le.mpr hR)]
  obtain ⟨qs, hqs⟩ := quantize_signal_loop_ok max_r min_r (max 1 bit_r) hR
    (le_max_left 1 bit_r)
    (sample_times.map (fun t => sinf t * ((max_r - min_r) / 2) + (max_r + min_r) / 2))
  rw [hqs]
  rfl

/-- C6 (amended): when maxRange ≤ minRange (and bitDepth ≥ 1) the
explicit compute action fails with the invalid-range error and produces
no output; the scalar kernel `compute_quantized_value`, if invoked,
returns minRange for every input without raising; but the live
recompute path checks the range itself first and produces no quantized
output at all (error banner), so live mode does not return minRange. -/
theorem invalid_range_mode_split (max_r min_r analog_v : ℚ) (bit_r : ℤ)
    (sinf : ℚ → ℚ) (hR : max_r ≤ min_r) (hB : 1 ≤ bit_r) :
    explicit_quantize max_r min_r bit_r analog_v =
      .error "Maximum Range must be greater than Minimum Range." ∧
    compute_quantized_value max_r min_r bit_r analog_v = .ok min_r ∧
    update_quantization_plot sinf max_r min_r bit_r analog_v = none := by
  refine ⟨?_, ?_, ?_⟩
  · unfold explicit_quantize
    rw [if_neg (by omega : ¬ bit_r ≤ 0), if_pos hR]
  · unfold compute_quantized_value
    rw [if_pos hR]
  · simp only [update_quantization_plot]
    rw [if_pos hR]

/-- Witness for C6 (amended) at maxRange=minRange=5, bitDepth=8,
input 3 V. -/
theorem invalid_range_mode_split_witness :
    explicit_quantize 5 5 8 3 =
      .error "Maximum Range must be greater than Minimum Range." ∧
    compute_quantized_value 5 5 8 3 = .ok 5 ∧
    update_quantization_plot (fun t => t) 5 5 8 3 = none :=
  invalid_range_mode_split 5 5 3 8 (fun t => t) (by norm_num) (by norm_num)

/-- Counterexample to C6 as stated: with maxRange=5, minRange=5,
bitDepth=8, the live recompute path does not return 5 for the input —
it produces no quantized output at all (`none`, the error banner). -/
theorem live_invalid_range_no_output :
    update_quantization_plot (fun t => t) 5 5 8 3 = none := by
  unfold update_quantization_plot
  rw [if_pos (le_refl (5:ℚ))]

/-- C7 (amended): for bitDepth ≤ 0 the explicit compute action fails
with the invalid-bit-depth error and produces no output; but the live
recompute path does not fail: it clamps the bit depth to max(1,
bitDepth), behaves exactly as bitDepth=1, and (for a valid range)
produces a full quantized output. -/
theorem invalid_bit_depth_mode_split (max_r min_r analog_v : ℚ) (bit_r : ℤ)
    (sinf : ℚ → ℚ) (hB : bit_r ≤ 0) :
    explicit_quantize max_r min_r bit_r analog_v =
      .error "Bit Rate must be a positive integer." ∧
    update_quantization_plot sinf max_r min_r bit_r analog_v =
      update_quantization_plot sinf max_r min_r 1 analog_v ∧
    (min_r < max_r →
      (update_quantization_plot sinf max_r min_r bit_r analog_v).isSome = true) := by
  have hmax : max 1 bit_r = 1 := by omega
  refine ⟨?_, ?_, ?_⟩
  · unfold explicit_quantize
    rw [if_pos hB]
  · unfold update_quantization_plot
    rw [hmax, max_self]
  · intro hR
    exact update_plot_isSome sinf max_r min_r bit_r analog_v hR

/-- Witness for C7 (amended) at maxRange=10, minRange=-10, bitDepth=0,
input 5 V. -/
theorem invalid_bit_depth_mode_split_witness :
    explicit_quantize 10 (-10) 0 5 =
      .error "Bit Rate must be a positive integer." ∧
    update_quantization_plot (fun t => t) 10 (-10) 0 5 =
      update_quantization_plot (fun t => t) 10 (-10) 1 5 ∧
    (update_quantization_plot (fun t => t) 10 (-10) 0 5).isSome = true := by
  obtain ⟨h1, h2, h3⟩ :=
    invalid_bit_depth_mode_split 10 (-10) 5 0 (fun t => t) (by norm_num)
  exact ⟨h1, h2, h3 (by norm_num)⟩

/-- Counterexample to C7 as stated: with bitDepth=0 and the valid range
[-10, 10], the live recompute path does not fail — it produces a full
(degraded, bit-depth-1) output, while only the explicit compute action
raises the invalid-bit-depth error. -/
theorem live_zero_bit_depth_output :
    (update_quantization_plot (fun t => t) 10 (-10) 0 5).isSome = true ∧
    explicit_quantize 10 (-10) 0 5 =
      .error "Bit Rate must be a positive integer." := by
  refine ⟨update_plot_isSome (fun t => t) 10 (-10) 0 5 (by norm_num), ?_⟩
  unfold explicit_quantize
  rw [if_pos (by norm_num : (0:ℤ) ≤ 0)]

/-- C8 (amended): configuration-change events are not debounced — each
change event triggers exactly one recomputation, synchronously and
immediately at the event's own time; no 50 ms deadline is ever
scheduled and bursts are never coalesced.  (The explicit compute action
is likewise a plain synchronous call.) -/
theorem change_events_recompute_immediately (sinf : ℚ → ℚ) (s : FieldVars)
    (evs : List (ℕ × FieldChange)) :
    (processChangeEvents sinf s evs).map Prod.fst = evs.map Prod.fst ∧
    (processChangeEvents sinf s evs).length = evs.length := by
  induction evs generalizing s with
  | nil => exact ⟨rfl, rfl⟩
  | cons e rest ih =>
    obtain ⟨t, c⟩ := e
    simp only [processChangeEvents, List.map_cons, List.length_cons]
    obtain ⟨h1, h2⟩ := ih (applyFieldChange s c)
    exact ⟨by rw [h1], by rw [h2]⟩

/-- Counterexample to C8 as stated: a burst of two change events at
times 0 ms and 10 ms makes the program recompute twice, at times 0 and
10, whereas the claimed debounce scheduler (deadline now + 50 ms,
cancelled by an intervening change) would recompute once, at time 60. -/
theorem no_debounce_counterexample :
    (processChangeEvents (fun t => t) ⟨10, -10, 8, 5⟩
        [(0, FieldChange.setAnalogVoltage 1),
         (10, FieldChange.setAnalogVoltage 2)]).map Prod.fst = [0, 10] ∧
    debounceFireTimes 50 [0, 10] = [60] ∧
    ([0, 10] : List ℕ) ≠ [60] := by
  refine ⟨rfl, by decide, by decide⟩

lemma linspace_length (a b : ℚ) (n : ℕ) : (linspace a b n).length = n := by
  unfold linspace
  split_ifs with h0 h1
  · simp [h0]
  · simp [h1]
  · rw [List.length_map, List.length_range]

lemma linspace_getElem (a b : ℚ) (n i : ℕ) (h2 : 2 ≤ n) (hi : i < n) :
    (linspace a b n)[i]? = some (a + (i : ℚ) * ((b - a) / ((n - 1 : ℕ) : ℚ))) := by
  unfold linspace
  rw [if_neg (by omega), if_neg (by omega)]
  rw [List.getElem?_map, List.getElem?_range hi]
  rfl

lemma sample_times_getLast : sample_times.getLast? = some twoPi := by
  have hlen : sample_times.length = 200 := linspace_length 0 twoPi 200
  rw [List.getLast?_eq_getElem? sample_times, hlen]
  unfold sample_times
  rw [show (200 - 1 : ℕ) = 199 from rfl,
    linspace_getElem 0 twoPi 200 199 (by norm_num) (by norm_num)]
  norm_num [twoPi]

/-- C9 (amended): the live plot's reference waveform sampler ignores
any sample rate or duration: it always produces exactly 200 sample
times, evenly spaced over the closed interval [0, 2π] with spacing
2π/199, and the right endpoint 2π is itself a sample time. -/
theorem sample_times_closed_interval :
    sample_times.length = 200 ∧
    (∀ i : ℕ, i < 200 → sample_times[i]? = some ((i : ℚ) * (twoPi / 199))) ∧
    sample_times.getLast? = some twoPi := by
  refine ⟨linspace_length 0 twoPi 200, ?_, sample_times_getLast⟩
  intro i hi
  unfold sample_times
  rw [linspace_getElem 0 twoPi 200 i (by norm_num) hi]
  norm_num

/-- Witness for C9 (amended) at the last index 199: the sample time is
199 · (2π/199) = 2π. -/
theorem sample_times_closed_interval_witness :
    sample_times[199]? = some ((199 : ℚ) * (twoPi / 199)) :=
  sample_times_closed_interval.2.1 199 (by norm_num)

/-- Counterexample to C9 as stated: the sampler always yields 200
sample times — not max(2, ⌊sampleRate·duration⌋), which for
sampleRate=100, duration=1 would be 100 — and the interval's right
endpoint is itself a sample time, so the sampled interval is closed,
not half-open. -/
theorem sample_count_counterexample :
    sample_times.length = 200 ∧
    max 2 (Nat.floor ((100 : ℚ) * 1)) = 100 ∧
    sample_times.length ≠ max 2 (Nat.floor ((100 : ℚ) * 1)) ∧
    sample_times.getLast? = some twoPi := by
  have h1 : sample_times.length = 200 := linspace_length 0 twoPi 200
  have h2 : max 2 (Nat.floor ((100 : ℚ) * 1)) = 100 := by norm_num
  exact ⟨h1, h2, by rw [h1, h2]; norm_num, sample_times_getLast⟩

/-- C10: for a valid configuration (minRange < maxRange, bitDepth ≥ 1),
when the scaled normalized value lands exactly halfway between two
integers k and k+1, the quantizer's level index is the even one of the
two (banker's rounding, Python's `round`), then clamped as usual. -/
theorem quantize_tie_half_even (max_range min_range v : ℚ) (bit_rate k : ℤ)
    (hR : min_range < max_range) (hB : 1 ≤ bit_rate)
    (h : normalized_voltage max_range min_range v *
      ((num_quantization_levels bit_rate : ℚ) - 1) = (k : ℚ) + 1/2) :
    compute_quantized_value max_range min_range bit_rate v =
      .ok (min_range +
        ((max 0 (min (if Even k then k else k + 1)
          (num_quantization_levels bit_rate - 1)) : ℤ) : ℚ) *
        step_size max_range min_range bit_rate) := by
  rw [cqv_valid max_range min_range v bit_rate hR hB]
  unfold clamped_index quantized_level_index
  rw [h, pyRound_tie]

/-- Witness for C10 at maxRange=1, minRange=0, bitDepth=1, input 0.5 V:
the scaled normalized value is exactly 1/2, the index rounds to the
even integer 0, and the output is minRange = 0, not maxRange. -/
theorem quantize_tie_half_even_witness :
    compute_quantized_value 1 0 1 (1/2) = .ok 0 := by
  have h := quantize_tie_half_even 1 0 (1/2) 1 0 (by norm_num) (by norm_num)
    (by norm_num [normalized_voltage, num_quantization_levels,
      show (1:ℤ).toNat = 1 from rfl])
  simpa [step_size, num_quantization_levels,
    show (1:ℤ).toNat = 1 from rfl] using h
